import Mathlib

/-!
Verification of the Firestorm protocol client and session-execution engine.

Shallow embedding of the core of the repository:
* `tools/syndrdb_client.py` — `SyndrDBClient.connect` / `execute` / the
  newline-framed response decoding;
* `run-firestorm.py` — `connect_all_agents` (batch connector) and the
  barrier-synchronised `start_test` / `_run_agent` pair;
* `agents/base_agent.py` — `BaseAgent.run_pregenerated_session`;
* `conductor/health_monitor.py` — `HealthMonitor.is_healthy` and friends.

Byte strings are modelled as `List Char` (the protocol is ASCII text),
wall-clock time as `ℚ`, and each `socket.recv` call as one `RecvEvent`
drawn from an oracle list.  `json.loads` plus the `status` check of the
auth response is modelled as an oracle function (its internals are an
external library).
-/

namespace Firestorm

/-- Result of one `socket.recv(4096)` call inside a read loop: a chunk of
bytes, end of stream (`recv` returned `b''`), or a `socket.timeout`. -/
inductive RecvEvent where
  | chunk (s : List Char)
  | closed
  | timedOut
deriving DecidableEq, Repr

/-- Split a byte buffer at the first occurrence of `sep`, like Python's
`buffer.split(sep, 1)` when `sep` occurs: returns the part before the
separator and the part after it, or `none` when `sep` is absent. -/
def splitFirst (sep : Char) : List Char → Option (List Char × List Char)
  | [] => none
  | c :: rest =>
    if c = sep then some ([], rest)
    else
      match splitFirst sep rest with
      | some (l, r) => some (c :: l, r)
      | none => none

/-- All complete (newline-terminated) lines of a buffer together with the
trailing remainder after the last newline.  This is the result of the
`while b'\n' in buffer: line, buffer = buffer.split(b'\n', 1)` loop of
`SyndrDBClient.connect` (lines 58–59). -/
def completeLines : List Char → List (List Char) × List Char
  | [] => ([], [])
  | c :: rest =>
    if c = '\n' then
      ([] :: (completeLines rest).1, (completeLines rest).2)
    else
      match completeLines rest with
      | ([], r) => ([], c :: r)
      | (l :: ls, r) => ((c :: l) :: ls, r)

/-- ASCII whitespace as stripped by Python's `str.strip()`. -/
def isPyWhitespace (c : Char) : Bool :=
  c = ' ' || c = '\t' || c = '\n' || c = '\r' || c = '\x0b' || c = '\x0c'

/-- Python's `str.strip()` on an ASCII string: drop whitespace from both
ends (models line 60, `line.decode('utf-8').strip()`). -/
def pyStrip (l : List Char) : List Char :=
  ((l.dropWhile isPyWhitespace).reverse.dropWhile isPyWhitespace).reverse

/-- Outcome of `json.loads(line)` followed by the `status == "error"` check
on the auth line (lines 69–74): parses with a non-error status, parses with
`status == "error"`, or fails to parse (`json.JSONDecodeError`). -/
inductive AuthParse where
  | ok
  | errStatus
  | invalid
deriving DecidableEq, Repr

/-- Errors raised inside the `connect` handshake (all are caught by the
outer `except` clauses of `connect`). -/
inductive HandshakeError where
  | connClosed
  | timeout
  | authFailed
  | invalidAuth
deriving DecidableEq, Repr

/-- The inner line-consumption loop of `SyndrDBClient.connect`
(lines 58–74): consume the complete lines of the buffer in order, filling
the welcome message first and the auth line second; an auth line that
fails to parse or has an error status raises; any further complete line is
dropped. -/
def feedLines (p : List Char → AuthParse) :
    List (List Char) → Option (List Char) → Option (List Char) →
    Except HandshakeError (Option (List Char) × Option (List Char))
  | [], w, a => .ok (w, a)
  | line :: rest, w, a =>
    let ls := pyStrip line
    match w with
    | none => feedLines p rest (some ls) a
    | some wl =>
      match a with
      | none =>
        match p ls with
        | .invalid => .error .invalidAuth
        | .errStatus => .error .authFailed
        | .ok => feedLines p rest (some wl) (some ls)
      | some al => feedLines p rest (some wl) (some al)

/-- The handshake read loop of `SyndrDBClient.connect` (lines 46–74):
`while welcome_msg is None or auth_msg is None`, read a chunk (empty chunk
or closed stream raises "Connection closed before receiving all
responses"; an exhausted oracle stands for a read that never returns data
and hence times out), append it to the buffer, and consume all complete
lines.  On success returns the welcome message, the auth line, and the
remaining (retained) buffer. -/
def handshakeLoop (p : List Char → AuthParse) :
    List RecvEvent → List Char → Option (List Char) → Option (List Char) →
    Except HandshakeError (List Char × List Char × List Char)
  | _, buf, some wl, some al => .ok (wl, al, buf)
  | [], _, _, _ => .error .timeout
  | .closed :: _, _, _, _ => .error .connClosed
  | .timedOut :: _, _, _, _ => .error .timeout
  | .chunk s :: rest, buf, w, a =>
    if s = [] then .error .connClosed
    else
      match feedLines p (completeLines (buf ++ s)).1 w a with
      | .error e => .error e
      | .ok (w', a') => handshakeLoop p rest (completeLines (buf ++ s)).2 w' a'

/-- Connection state of a `SyndrDBClient` as far as `connect` manipulates
it: the `connected` flag and whether the socket is still open
(`self.socket is not None`). -/
structure ConnState where
  connected : Bool
  socketOpen : Bool
deriving DecidableEq, Repr

/-- Environment of one `SyndrDBClient.connect` call: what the try block
(lines 34–78) encounters.  `tcpFail` is an `OSError` from socket creation
or `socket.connect`; `tcpTimeout` is a `socket.timeout` there; `sendFail`
is an error from `sendall`; `handshake evs` reaches the read loop and
observes the events `evs`. -/
inductive ConnectEnv where
  | tcpFail
  | tcpTimeout
  | sendFail
  | handshake (evs : List RecvEvent)
deriving DecidableEq, Repr

/-- `SyndrDBClient.connect` (lines 32–98).  Every exception raised in the
try block is caught by the `except socket.timeout` / `except Exception`
clauses, which close the socket, set `connected = False` and return
`False`; the function is total and returns a plain boolean. -/
def connect (p : List Char → AuthParse) (env : ConnectEnv) : ConnState × Bool :=
  match env with
  | .tcpFail => (⟨false, false⟩, false)
  | .tcpTimeout => (⟨false, false⟩, false)
  | .sendFail => (⟨false, false⟩, false)
  | .handshake evs =>
    match handshakeLoop p evs [] none none with
    | .ok _ => (⟨true, true⟩, true)
    | .error _ => (⟨false, false⟩, false)

/-- The exception classes distinguished by the `except` clauses of
`SyndrDBClient.execute` (lines 145–167). -/
inductive ExecFailureKind where
  | timeout
  | connReset
  | brokenPipe
  | connAborted
  | other
deriving DecidableEq, Repr

/-- Outcome dictionary of a failed `execute` call, restricted to the
fields the claims are about. -/
structure ExecOutcome where
  success : Bool
  error : List Char
deriving DecidableEq, Repr

/-- The `except` clauses of `SyndrDBClient.execute` (lines 145–167): given
the exception raised inside the try block (with `msg` the exception text),
the resulting connection state and returned outcome.  `socket.timeout`
marks the client disconnected and returns "Query timeout";
`ConnectionResetError` / `BrokenPipeError` / `ConnectionAbortedError` mark
it disconnected and return "Connection lost: ..."; any other exception
(e.g. a JSON parse failure) returns `str(e)` and leaves the state
untouched. -/
def executeExcept (st : ConnState) (k : ExecFailureKind) (msg : List Char) :
    ConnState × ExecOutcome :=
  match k with
  | .timeout => ({ st with connected := false }, ⟨false, "Query timeout".toList⟩)
  | .connReset => ({ st with connected := false }, ⟨false, "Connection lost: ".toList ++ msg⟩)
  | .brokenPipe => ({ st with connected := false }, ⟨false, "Connection lost: ".toList ++ msg⟩)
  | .connAborted => ({ st with connected := false }, ⟨false, "Connection lost: ".toList ++ msg⟩)
  | .other => (st, ⟨false, msg⟩)

/-- The response read loop of `SyndrDBClient.execute` (lines 120–131):
accumulate chunks into `response_data`; an empty chunk (peer closed)
breaks out of the loop, after which the accumulated bytes are handed to
`json.loads` as if they were a complete response; once a newline is seen,
`response_data.split(b'\n')[0]` keeps only the bytes before the first
newline and the loop breaks.  Returns the frame handed to the JSON parser
(or the timeout failure) together with the unconsumed recv events; note
that no component retains the bytes after the first newline. -/
def execReadLoop : List RecvEvent → List Char →
    Except ExecFailureKind (List Char) × List RecvEvent
  | [], _ => (.error .timeout, [])
  | .timedOut :: rest, _ => (.error .timeout, rest)
  | .closed :: rest, acc => (.ok acc, rest)
  | .chunk s :: rest, acc =>
    if s = [] then (.ok acc, rest)
    else
      match splitFirst '\n' (acc ++ s) with
      | some (line, _) => (.ok line, rest)
      | none => execReadLoop rest (acc ++ s)

/-- One agent entry of the orchestrator's fleet: its `agent_id` and the
environment its `connect()` call will encounter. -/
structure AgentConn where
  agentId : List Char
  env : ConnectEnv
deriving DecidableEq, Repr

/-- `connect_agent` inside `FirestormOrchestrator.connect_all_agents`
(lines 382–388): calls `agent.db_client.connect()` and returns
`(agent, True, None)`; the `except` branch that would return
`(agent, False, str(e))` is reachable only if `connect()` raises, and
`SyndrDBClient.connect` never raises (it is a total function here), so the
return value of `connect()` is discarded and the reported success flag is
always `True`. -/
def connect_agent (p : List Char → AuthParse) (a : AgentConn) : Bool × Option (List Char) :=
  match connect p a.env with
  | (_, _) => (true, none)

/-- The consecutive batches `agents[batch_start:batch_end]` generated by
`for batch_start in range(0, len(agents), batch_size)` (line 391). -/
def pyBatches (batchSize : ℕ) (agents : List AgentConn) : List (List AgentConn) :=
  (List.range ((agents.length + batchSize - 1) / batchSize)).map
    (fun i => (agents.drop (i * batchSize)).take batchSize)

/-- `FirestormOrchestrator.connect_all_agents` (lines 373–432): process the
fleet in batches, within each batch run `connect_agent` per agent and
collect into `failed_agents` the ids of agents whose reported success flag
is false; after all batches, raise (`.error`) with the failed ids when any
exist, otherwise succeed with the connected count. -/
def connect_all_agents (p : List Char → AuthParse) (agents : List AgentConn)
    (batchSize : ℕ) : Except (List (List Char)) ℕ :=
  let failed := (pyBatches batchSize agents).flatMap
    (fun b => b.filterMap (fun a => if (connect_agent p a).1 then none else some a.agentId))
  let connectedCount := (pyBatches batchSize agents).foldl
    (fun n b => n + (b.filter (fun a => (connect_agent p a).1)).length) 0
  if failed = [] then .ok connectedCount else .error failed

/-- One entry of `self.execution_results` as appended by
`BaseAgent.run_pregenerated_session` (lines 270–287), restricted to the
fields the claims are about: the cycle number, the 1-based
`original_query_index`, the clock value observed at the pre-send deadline
check (`none` when no `stop_time` was supplied, since the short-circuit
`stop_time is not None and time.time() >= stop_time` then never reads the
clock), and the statement. -/
structure ExecRecord where
  cycle : ℕ
  origIdx : ℕ
  checkTime : Option ℚ
  query : String
deriving DecidableEq, Repr

/-- The inner `for idx, query in enumerate(self.pregenerated_queries)` loop
of `run_pregenerated_session` (lines 236–293) for one cycle.  `clock` is
the wall clock, sampled once per `time.time()` call at tick `tick`.
Returns the tick counter after the cycle, the accumulated execution
records, and whether the loop broke on the deadline. -/
def runCycleAux (stopT : Option ℚ) (clock : ℕ → ℚ) (cyc : ℕ) :
    List String → ℕ → ℕ → List ExecRecord → ℕ × List ExecRecord × Bool
  | [], tick, _, acc => (tick, acc, false)
  | q :: rest, tick, idx, acc =>
    match stopT with
    | none => runCycleAux stopT clock cyc rest tick (idx + 1)
        (acc ++ [⟨cyc, idx + 1, none, q⟩])
    | some T =>
      if T ≤ clock tick then (tick + 1, acc, true)
      else runCycleAux stopT clock cyc rest (tick + 1) (idx + 1)
        (acc ++ [⟨cyc, idx + 1, some (clock tick), q⟩])

/-- The outer `while True` cycling loop of `run_pregenerated_session`
(lines 228–306).  `fuel` bounds the number of cycles (the Python loop has
no such bound; a run that would cycle further than `fuel` returns with
`finished = false` in the last component).  On each pass the cycle counter
is incremented, the query list is traversed from index 0, and after a
cycle that completed without breaking the `for`/`else` clause either stops
(no `stop_time`, or the deadline has passed at a fresh clock sample) or
continues with the next cycle. -/
def runLoop (qs : List String) (stopT : Option ℚ) (clock : ℕ → ℚ) :
    ℕ → ℕ → ℕ → List ExecRecord → ℕ × ℕ × List ExecRecord × Bool
  | 0, tick, cyc, acc => (cyc, tick, acc, false)
  | fuel + 1, tick, cyc, acc =>
    match runCycleAux stopT clock (cyc + 1) qs tick 0 acc with
    | (tick', acc', true) => (cyc + 1, tick', acc', true)
    | (tick', acc', false) =>
      match stopT with
      | none => (cyc + 1, tick', acc', true)
      | some T =>
        if T ≤ clock tick' then (cyc + 1, tick' + 1, acc', true)
        else runLoop qs stopT clock fuel (tick' + 1) (cyc + 1) acc'

/-- Observable result of one `run_pregenerated_session` call:
whether `start_session` (and hence `SyndrDBClient.connect`) was called,
whether `end_session` (`disconnect`) was called, the final value of
`cycle_count`, the execution records, and whether the run came to its own
stop within the cycle bound. -/
structure SessionResult where
  connectCalled : Bool
  disconnectCalled : Bool
  cycles : ℕ
  records : List ExecRecord
  finished : Bool
deriving DecidableEq, Repr

/-- `BaseAgent.run_pregenerated_session` (lines 184–315).  With an empty
`pregenerated_queries` list the method logs an error and returns at line
200, before `start_session` is reached; otherwise it connects unless
`skip_connect` is set, runs the cycling loop, and always calls
`end_session` afterwards. -/
def run_pregenerated_session (qs : List String) (stopT : Option ℚ)
    (skipConnect : Bool) (clock : ℕ → ℚ) (fuel : ℕ) : SessionResult :=
  if qs.isEmpty then ⟨false, false, 0, [], true⟩
  else
    match runLoop qs stopT clock fuel 0 0 [] with
    | (c, _, recs, fin) => ⟨!skipConnect, true, c, recs, fin⟩

/-- The execution records of one full uninterrupted pass over the query
list starting at 0-based index `idx` in cycle `cyc` (no deadline checks,
as in the `stop_time is None` mode). -/
def mkRecords (cyc : ℕ) : ℕ → List String → List ExecRecord
  | _, [] => []
  | idx, q :: rest => ⟨cyc, idx + 1, none, q⟩ :: mkRecords cyc (idx + 1) rest

/-- State of a `HealthMonitor` (`conductor/health_monitor.py`): the three
rolling windows (`deque(maxlen=100)`, `deque(maxlen=100)`,
`deque(maxlen=20)`) and the cumulative counters.  Latencies are modelled
as rationals. -/
structure HealthState where
  queryTimes : List ℚ
  querySuccess : List Bool
  connectionChecks : List Bool
  totalQueries : ℕ
  totalSuccessful : ℕ
  totalFailed : ℕ
deriving DecidableEq, Repr

/-- Appending to a `collections.deque(maxlen=n)`: the new element goes to
the right and the oldest elements are evicted down to length `n`. -/
def dequeAppend (maxlen : ℕ) (l : List α) (x : α) : List α :=
  (l ++ [x]).drop ((l ++ [x]).length - maxlen)

/-- `HealthMonitor.record_query` (lines 32–41). -/
def record_query (st : HealthState) (latency : ℚ) (success : Bool) : HealthState :=
  { st with
    queryTimes := dequeAppend 100 st.queryTimes latency
    querySuccess := dequeAppend 100 st.querySuccess (success)
    totalQueries := st.totalQueries + 1
    totalSuccessful := st.totalSuccessful + if success then 1 else 0
    totalFailed := st.totalFailed + if success then 0 else 1 }

/-- `recent_success_rate` of `collect_metrics` (lines 81–84):
`sum(self.query_success) / len(self.query_success) * 100` over the 0/1
window, or 0 when the window is empty. -/
def recent_success_rate (st : HealthState) : ℚ :=
  if st.querySuccess.isEmpty then 0
  else (st.querySuccess.count true : ℚ) / (st.querySuccess.length : ℚ) * 100

/-- `connection_health` of `collect_metrics` (lines 96–99):
`sum(self.connection_checks) / len(self.connection_checks) * 100`, or 0
when no checks were recorded. -/
def connection_health (st : HealthState) : ℚ :=
  if st.connectionChecks.isEmpty then 0
  else (st.connectionChecks.count true : ℚ) / (st.connectionChecks.length : ℚ) * 100

/-- Insert into an ascending list, keeping earlier-inserted equals first. -/
def insertAsc (x : ℚ) : List ℚ → List ℚ
  | [] => [x]
  | y :: ys => if x ≤ y then x :: y :: ys else y :: insertAsc x ys

/-- Python's `sorted(...)` on the latency window: a stable ascending sort,
modelled as insertion sort. -/
def pySorted (l : List ℚ) : List ℚ := l.foldr insertAsc []

/-- The p99 latency of `collect_metrics` (line 73):
`sorted_times[int(n * 0.99)] if n > 2 else 0`.  For the window sizes the
deque admits (`n ≤ 100`) the float expression `int(n * 0.99)` equals
`(99 * n) / 100` in integer arithmetic (the double-rounding error of
`n * 0.99` is far smaller than the distance to the nearest integer
boundary). -/
def p99Latency (st : HealthState) : ℚ :=
  if st.queryTimes.length > 2 then
    (pySorted st.queryTimes).getD ((99 * st.queryTimes.length) / 100) 0
  else 0

/-- Python's banker's rounding of a rational to an integer (`round(x)`):
round to nearest, ties to the even integer. -/
def pyRoundInt (q : ℚ) : ℤ :=
  if q - ⌊q⌋ < 1 / 2 then ⌊q⌋
  else if (1 : ℚ) / 2 < q - ⌊q⌋ then ⌊q⌋ + 1
  else if 2 ∣ ⌊q⌋ then ⌊q⌋ else ⌊q⌋ + 1

/-- Python's `round(x, 2)` on the exact rational value. -/
def pyRound2 (q : ℚ) : ℚ := (pyRoundInt (q * 100) : ℚ) / 100

/-- `HealthMonitor.is_healthy` (lines 146–155), with `collect_metrics`
(lines 63–124) inlined for the three fields it reads:
`metrics["connection"]["responsive"]` is `connection_health > 50`
(unrounded, line 121), `metrics["success_rate"]["recent_100"]` is the
recent success rate rounded to 2 decimals (line 115), and
`metrics["latency"]["p99_ms"]` is the p99 rounded to 2 decimals
(line 105). -/
def is_healthy (st : HealthState) : Bool :=
  let connection_ok := connection_health st > 50
  let success_ok := pyRound2 (recent_success_rate st) > 90
  let latency_ok := pyRound2 (p99Latency st) < 5000
  connection_ok && success_ok && latency_ok

/-- A health-monitor state whose last 100 samples all succeeded, whose
latency window is tiny, and whose liveness window is 19 successes followed
by one final failed probe. -/
def lastProbeFailedState : HealthState :=
  ⟨[1, 1, 1], List.replicate 100 true, List.replicate 19 true ++ [false], 100, 100, 0⟩

/-- A health-monitor state at exactly 89% rolling success rate, with p99
under the ceiling and all liveness probes succeeding. -/
def rate89State : HealthState :=
  ⟨[1, 1, 1], List.replicate 89 true ++ List.replicate 11 false,
    List.replicate 20 true, 100, 89, 11⟩

/-- A health-monitor state at exactly 91% rolling success rate, with p99
under the ceiling and all liveness probes succeeding. -/
def rate91State : HealthState :=
  ⟨[1, 1, 1], List.replicate 91 true ++ List.replicate 9 false,
    List.replicate 20 true, 100, 91, 9⟩

/-- Shared-memory state of the start synchronisation in
`FirestormOrchestrator.start_test` / `_run_agent` for a fleet of `n`
runner threads: the shared `self.stop_time` variable, the orchestrating
thread's program counter (0 = before computing `stop_time` at line 515,
1 = `stop_time` written but barrier not yet reached, 2 = arrived at the
barrier), each runner's program counter (0 = before `start_barrier.wait()`,
1 = arrived and waiting, 2 = past the barrier with `stop_time` read at
line 442), and each runner's local copy of `stop_time`. -/
structure BarrierState (n : ℕ) where
  stopTime : ℚ
  orchPC : ℕ
  runnerPC : Fin n → ℕ
  readVal : Fin n → Option ℚ

/-- Initial state: `self.stop_time = 0` (set in `__init__`, line 90),
no thread has reached the barrier, no runner has read. -/
def initState (n : ℕ) : BarrierState n := ⟨0, 0, fun _ => 0, fun _ => none⟩

/-- The `threading.Barrier(len(self.agents) + 1)` releases its parties
exactly when all `n` runners and the orchestrating thread have arrived. -/
def released (s : BarrierState n) : Prop :=
  s.orchPC = 2 ∧ ∀ i, s.runnerPC i ≠ 0

/-- Interleaving semantics of the start synchronisation with stop time
`v = test_start_time + duration_seconds`: the orchestrating thread first
writes `self.stop_time = v` (line 515) and then arrives at the barrier
(line 519); each runner thread arrives at the barrier (line 439) after an
arbitrary delay and, only once the barrier has released every party, reads
`self.stop_time` into its local `stop_time` (line 442).  Steps interleave
arbitrarily. -/
inductive BStep (n : ℕ) (v : ℚ) : BarrierState n → BarrierState n → Prop
  | orchWrite (s : BarrierState n) : s.orchPC = 0 →
      BStep n v s { s with stopTime := v, orchPC := 1 }
  | orchArrive (s : BarrierState n) : s.orchPC = 1 →
      BStep n v s { s with orchPC := 2 }
  | runnerArrive (s : BarrierState n) (i : Fin n) : s.runnerPC i = 0 →
      BStep n v s { s with runnerPC := Function.update s.runnerPC i 1 }
  | runnerRead (s : BarrierState n) (i : Fin n) : s.runnerPC i = 1 → released s →
      BStep n v s { s with runnerPC := Function.update s.runnerPC i 2,
                           readVal := Function.update s.readVal i (some s.stopTime) }

/-- States reachable from the initial state under arbitrary interleaving. -/
def BReachable (n : ℕ) (v : ℚ) (s : BarrierState n) : Prop :=
  Relation.ReflTransGen (BStep n v) (initState n) s

/-! ## Helper lemmas -/

theorem connect_agent_eq (p : List Char → AuthParse) (a : AgentConn) :
    connect_agent p a = (true, none) := rfl

theorem completeLines_retains (l₁ rest : List Char) (h : '\n' ∉ l₁) :
    completeLines (l₁ ++ '\n' :: rest) =
      (l₁ :: (completeLines rest).1, (completeLines rest).2) := by
  induction l₁ with
  | nil => simp [completeLines]
  | cons c l ih =>
    have hc : c ≠ '\n' := fun hcc => h (hcc ▸ List.mem_cons_self c l)
    have ih' := ih (fun hm => h (List.mem_cons_of_mem c hm))
    simp only [List.cons_append, completeLines, if_neg hc]
    rw [show l.append ('\n' :: rest) = l ++ '\n' :: rest from rfl, ih']

/-! ## Claims -/

/-- C1 (code bug): the batch connector never reports a failed connection.
`connect_agent` counts an agent as failed only when `connect()` raises,
but `SyndrDBClient.connect` catches every error and returns `False`
instead of raising, so `connect_all_agents` can never return the error
listing failed identifiers: for every fleet and batch size it succeeds,
even for a fleet containing an agent whose `connect()` returned `False`
(here `agent_1`, whose TCP connection attempt fails), and load generation
proceeds with a partially-connected fleet. -/
theorem batch_connect_ignores_connect_failures :
    (∀ (p : List Char → AuthParse) (agents : List AgentConn) (batchSize : ℕ)
      (l : List (List Char)), connect_all_agents p agents batchSize ≠ Except.error l) ∧
    (connect (fun _ => AuthParse.invalid) ConnectEnv.tcpFail).2 = false ∧
    connect_all_agents (fun _ => AuthParse.invalid)
      [⟨"agent_1".toList, ConnectEnv.tcpFail⟩] 2 = Except.ok 1 := by
  refine ⟨fun p agents batchSize l => ?_, rfl, rfl⟩
  simp [connect_all_agents, connect_agent_eq]

/-- C2 counterexample: the response decoder inside `execute()` does not
retain the bytes following the first newline.  Decoding a single read
containing two complete responses `"r1\nr2\n"` yields only `"r1"`, with no
recv event nor buffered bytes left over; a subsequent decode starts from
nothing and times out instead of producing the retained `"r2"`. -/
theorem execute_decode_discards_trailing_bytes :
    execReadLoop [RecvEvent.chunk ("r1\nr2\n".toList)] [] =
      (Except.ok "r1".toList, ([] : List RecvEvent)) ∧
    (execReadLoop [] []).1 = Except.error ExecFailureKind.timeout := ⟨rfl, rfl⟩

/-- C2 (amended): the two-line connect handshake retains the bytes after
the first newline of a read as the beginning of the next message — its
buffer-splitting loop turns `l₁ ++ '\n' ++ rest` into the complete line
`l₁` followed by the lines and remainder of `rest`, and the single read
`"welcome\n{"status":"ok"}\n"` decodes to exactly the two separated
messages — but response decoding inside `execute()` does not retain them:
bytes after the first newline of a read are discarded
(`response_data.split(b'\n')[0]`), so a following decode starts empty. -/
theorem decode_retention_connect_handshake_only :
    (∀ l₁ rest : List Char, '\n' ∉ l₁ →
      completeLines (l₁ ++ '\n' :: rest) =
        (l₁ :: (completeLines rest).1, (completeLines rest).2)) ∧
    handshakeLoop (fun _ => AuthParse.ok)
      [RecvEvent.chunk ("welcome\n\x7b\"status\":\"ok\"\x7d\n".toList)] [] none none =
      Except.ok ("welcome".toList, "\x7b\"status\":\"ok\"\x7d".toList, []) ∧
    (execReadLoop [RecvEvent.chunk ("a\nb".toList)] []).1 = Except.ok "a".toList ∧
    (execReadLoop [] []).1 = Except.error ExecFailureKind.timeout :=
  ⟨completeLines_retains, rfl, rfl, rfl⟩

/-- Witness for the amended C2 theorem at the concrete read
`"ab\ncd"`: the complete line `"ab"` is extracted and `"cd"` is retained. -/
theorem decode_retention_witness :
    completeLines ("ab".toList ++ '\n' :: "cd".toList) =
      ("ab".toList :: (completeLines "cd".toList).1, (completeLines "cd".toList).2) :=
  decode_retention_connect_handshake_only.1 "ab".toList "cd".toList (by decide)

/-- C3 counterexample: when the peer closes the stream before any newline,
the `execute()` read loop breaks out and hands the partially accumulated
bytes (here `"17"`) onward as if they were a complete frame — decoding
does not fail with a connection-closed error. -/
theorem execute_decode_accepts_truncated_frame :
    (execReadLoop [RecvEvent.chunk ("17".toList), RecvEvent.closed] []).1 =
      Except.ok "17".toList := rfl

/-- C3 (amended): in the `connect()` handshake, a stream closed before the
two newline-terminated messages are complete always fails with the
connection-closed error, whether the first message is still incomplete or
only the second; in `execute()`, a stream closed before a newline makes
the read loop break and return the partial accumulation as a complete
frame (failing later only if those bytes are not valid JSON). -/
theorem close_before_newline_connect_only :
    (∀ (p : List Char → AuthParse) (rest : List RecvEvent) (buf : List Char)
      (a : Option (List Char)),
      handshakeLoop p (RecvEvent.closed :: rest) buf none a =
        Except.error HandshakeError.connClosed) ∧
    (∀ (p : List Char → AuthParse) (rest : List RecvEvent) (buf wl : List Char),
      handshakeLoop p (RecvEvent.closed :: rest) buf (some wl) none =
        Except.error HandshakeError.connClosed) ∧
    (execReadLoop [RecvEvent.chunk ("4".toList), RecvEvent.closed] []).1 =
      Except.ok "4".toList := by
  refine ⟨fun p rest buf a => ?_, fun p rest buf wl => rfl, rfl⟩
  cases a <;> rfl

/-- C4 counterexample: a session runner given an empty query list with
`skip_connect = False` returns at the empty-list guard before
`start_session`; neither `connect()` nor `disconnect()` is called. -/
theorem empty_query_list_skips_connect :
    (run_pregenerated_session [] none false (fun _ => 0) 1).connectCalled = false ∧
    (run_pregenerated_session [] none false (fun _ => 0) 1).disconnectCalled = false :=
  ⟨rfl, rfl⟩

/-- C4 (amended): with an empty query list `run_pregenerated_session`
logs an error and returns immediately, for every deadline, skip flag,
clock and cycle bound: no connect, no disconnect, zero cycles and zero
execution records. -/
theorem empty_query_list_returns_early :
    ∀ (stopT : Option ℚ) (skipConnect : Bool) (clock : ℕ → ℚ) (fuel : ℕ),
      run_pregenerated_session [] stopT skipConnect clock fuel =
        ⟨false, false, 0, [], true⟩ :=
  fun _ _ _ _ => rfl

/-- C6: the exception dispatch of `execute()`.  A socket timeout yields
the "Query timeout" outcome and marks the connection disconnected; a
connection reset, broken pipe, or abort yields the "Connection lost"
outcome and marks it disconnected; any other failure (e.g. a decode/parse
error) yields an outcome carrying the exception text and leaves the
connection state unchanged. -/
theorem execute_exception_dispatch :
    ∀ (st : ConnState) (msg : List Char),
      ((executeExcept st .timeout msg).1.connected = false ∧
        (executeExcept st .timeout msg).2 = ⟨false, "Query timeout".toList⟩) ∧
      ((executeExcept st .connReset msg).1.connected = false ∧
        (executeExcept st .connReset msg).2 =
          ⟨false, "Connection lost: ".toList ++ msg⟩) ∧
      ((executeExcept st .brokenPipe msg).1.connected = false ∧
        (executeExcept st .brokenPipe msg).2 =
          ⟨false, "Connection lost: ".toList ++ msg⟩) ∧
      ((executeExcept st .connAborted msg).1.connected = false ∧
        (executeExcept st .connAborted msg).2 =
          ⟨false, "Connection lost: ".toList ++ msg⟩) ∧
      ((executeExcept st .other msg).1 = st ∧
        (executeExcept st .other msg).2.success = false ∧
        (executeExcept st .other msg).2.error = msg) :=
  fun _ _ => ⟨⟨rfl, rfl⟩, ⟨rfl, rfl⟩, ⟨rfl, rfl⟩, ⟨rfl, rfl⟩, rfl, rfl, rfl⟩

/-- C10: `connect()` never raises — it is a total function of its
environment — and every failure mode (TCP error, TCP timeout, send
failure, or any handshake error: stream closed mid-handshake, read
timeout, malformed auth response, authentication rejected) closes the
socket, sets `connected` to false and returns the boolean `False`, so all
failures are indistinguishable to the caller by the returned value. -/
theorem connect_fails_uniformly :
    ∀ (p : List Char → AuthParse) (evs : List RecvEvent) (e : HandshakeError),
      connect p ConnectEnv.tcpFail = (⟨false, false⟩, false) ∧
      connect p ConnectEnv.tcpTimeout = (⟨false, false⟩, false) ∧
      connect p ConnectEnv.sendFail = (⟨false, false⟩, false) ∧
      (handshakeLoop p evs [] none none = Except.error e →
        connect p (ConnectEnv.handshake evs) = (⟨false, false⟩, false)) := by
  intro p evs e
  refine ⟨rfl, rfl, rfl, fun h => ?_⟩
  simp [connect, h]

/-- Witness for C10: the handshake whose stream closes immediately (an
authentication never completes) makes `connect` return `False` with the
socket closed and `connected = false`. -/
theorem connect_fails_uniformly_witness :
    connect (fun _ => AuthParse.ok) (ConnectEnv.handshake [RecvEvent.closed]) =
      (⟨false, false⟩, false) :=
  (connect_fails_uniformly (fun _ => AuthParse.ok) [RecvEvent.closed]
    HandshakeError.connClosed).2.2.2 rfl

theorem le_pyRoundInt (m : ℤ) (q : ℚ) (h : (m : ℚ) ≤ q) : m ≤ pyRoundInt q := by
  have hf : m ≤ ⌊q⌋ := Int.le_floor.mpr h
  unfold pyRoundInt
  split_ifs <;> omega

theorem pyRoundInt_le (m : ℤ) (q : ℚ) (h : q ≤ (m : ℚ)) : pyRoundInt q ≤ m := by
  have hf : ⌊q⌋ ≤ m := by
    have h1 : (⌊q⌋ : ℚ) ≤ (m : ℚ) := le_trans (Int.floor_le q) h
    exact_mod_cast h1
  have key : ¬(q - ⌊q⌋ < 1 / 2) → ⌊q⌋ + 1 ≤ m := by
    intro h1
    have h2 : (1 : ℚ) / 2 ≤ q - ⌊q⌋ := not_lt.mp h1
    have h3 : (⌊q⌋ : ℚ) < (m : ℚ) := by linarith
    have h4 : ⌊q⌋ < m := by exact_mod_cast h3
    omega
  unfold pyRoundInt
  split_ifs with h1 h2 h3
  · exact hf
  · exact key h1
  · exact hf
  · exact key h1

theorem round2_rate_gt_90_iff (st : HealthState) (h : st.querySuccess.length ≤ 100) :
    pyRound2 (recent_success_rate st) > 90 ↔ recent_success_rate st > 90 := by
  by_cases he : st.querySuccess = []
  · simp only [recent_success_rate, he]
    norm_num [pyRound2, pyRoundInt]
  · have hie : st.querySuccess.isEmpty = false := by simp [he]
    have hrate : recent_success_rate st =
        (st.querySuccess.count true : ℚ) / (st.querySuccess.length : ℚ) * 100 := by
      simp [recent_success_rate, hie]
    have hn0 : 0 < st.querySuccess.length := List.length_pos.mpr he
    have hn0' : (0 : ℚ) < (st.querySuccess.length : ℚ) := by exact_mod_cast hn0
    constructor
    · intro hgt
      by_contra hng
      push_neg at hng
      have h1 : recent_success_rate st * 100 ≤ 9000 := by linarith
      have h2 : pyRoundInt (recent_success_rate st * 100) ≤ 9000 :=
        pyRoundInt_le 9000 _ (by exact_mod_cast h1)
      have h2' : (pyRoundInt (recent_success_rate st * 100) : ℚ) ≤ 9000 := by
        exact_mod_cast h2
      have h3 : pyRound2 (recent_success_rate st) ≤ 90 := by
        unfold pyRound2
        linarith
      linarith
    · intro hgt
      have hkn : (90 : ℚ) * (st.querySuccess.length : ℚ) <
          100 * (st.querySuccess.count true : ℚ) := by
        rw [hrate, div_mul_eq_mul_div, gt_iff_lt, lt_div_iff₀ hn0'] at hgt
        linarith
      have hkn' : 90 * st.querySuccess.length < 100 * st.querySuccess.count true := by
        exact_mod_cast hkn
      have hbig : 9010 * st.querySuccess.length ≤ 10000 * st.querySuccess.count true := by
        omega
      have hQ : (9010 : ℚ) * (st.querySuccess.length : ℚ) ≤
          10000 * (st.querySuccess.count true : ℚ) := by exact_mod_cast hbig
      have hr100 : (9010 : ℚ) ≤ recent_success_rate st * 100 := by
        rw [hrate, div_mul_eq_mul_div, div_mul_eq_mul_div, le_div_iff₀ hn0']
        linarith
      have h2 : (9010 : ℤ) ≤ pyRoundInt (recent_success_rate st * 100) :=
        le_pyRoundInt 9010 _ (by exact_mod_cast hr100)
      have h2' : (9010 : ℚ) ≤ (pyRoundInt (recent_success_rate st * 100) : ℚ) := by
        exact_mod_cast h2
      unfold pyRound2
      linarith

theorem rate_lastProbeFailedState : recent_success_rate lastProbeFailedState = 100 := by
  simp [recent_success_rate, lastProbeFailedState]

theorem health_lastProbeFailedState : connection_health lastProbeFailedState = 95 := by
  simp [connection_health, lastProbeFailedState]
  norm_num

theorem p99_lastProbeFailedState : p99Latency lastProbeFailedState = 1 := by
  simp [p99Latency, lastProbeFailedState, pySorted, insertAsc]

theorem rate_rate89State : recent_success_rate rate89State = 89 := by
  simp [recent_success_rate, rate89State]

theorem health_rate89State : connection_health rate89State = 100 := by
  simp [connection_health, rate89State]

theorem p99_rate89State : p99Latency rate89State = 1 := by
  simp [p99Latency, rate89State, pySorted, insertAsc]

theorem rate_rate91State : recent_success_rate rate91State = 91 := by
  simp [recent_success_rate, rate91State]

theorem health_rate91State : connection_health rate91State = 100 := by
  simp [connection_health, rate91State]

theorem p99_rate91State : p99Latency rate91State = 1 := by
  simp [p99Latency, rate91State, pySorted, insertAsc]

/-- C5 counterexample: a monitor whose last liveness probe failed (19
successes then one failure in the window) but whose rolling success rate
is 100% and whose p99 is far under the ceiling is still reported healthy,
because `is_healthy` tests `connection_health > 50` over the last 20
probes, not the outcome of the last probe. -/
theorem is_healthy_ignores_last_probe :
    is_healthy lastProbeFailedState = true ∧
    lastProbeFailedState.connectionChecks.getLast? = some false ∧
    recent_success_rate lastProbeFailedState > 90 ∧
    pyRound2 (p99Latency lastProbeFailedState) < 5000 := by
  refine ⟨?_, by decide, ?_, ?_⟩
  · simp only [is_healthy, rate_lastProbeFailedState, health_lastProbeFailedState,
      p99_lastProbeFailedState]
    norm_num [pyRound2, pyRoundInt]
  · rw [rate_lastProbeFailedState]; norm_num
  · rw [p99_lastProbeFailedState]; norm_num [pyRound2, pyRoundInt]

/-- C5 (amended): `is_healthy()` returns true iff the rolling success rate
over the last (at most) 100 samples exceeds 90% AND the rolling p99
latency rounded to 2 decimals is below 5000 ms AND strictly more than 50%
of the last (at most) 20 connection-liveness probes succeeded (0% when no
probe was recorded); in particular, with p99 under the ceiling and the
probe window all-successful, it returns false at a rolling success rate of
exactly 89% and true at exactly 91%. -/
theorem is_healthy_characterization :
    (∀ st : HealthState, st.querySuccess.length ≤ 100 →
      (is_healthy st = true ↔
        (recent_success_rate st > 90 ∧ pyRound2 (p99Latency st) < 5000 ∧
          connection_health st > 50))) ∧
    is_healthy rate89State = false ∧ is_healthy rate91State = true := by
  refine ⟨fun st h => ?_, ?_, ?_⟩
  · have hb : is_healthy st = true ↔
        (connection_health st > 50 ∧ pyRound2 (recent_success_rate st) > 90 ∧
          pyRound2 (p99Latency st) < 5000) := by
      simp [is_healthy, Bool.and_eq_true, decide_eq_true_eq, and_assoc]
    rw [hb, round2_rate_gt_90_iff st h]
    tauto
  · simp only [is_healthy, rate_rate89State, health_rate89State, p99_rate89State]
    norm_num [pyRound2, pyRoundInt]
  · simp only [is_healthy, rate_rate91State, health_rate91State, p99_rate91State]
    norm_num [pyRound2, pyRoundInt]

/-- Witness for the amended C5 theorem at the 91%-success state. -/
theorem is_healthy_characterization_witness :
    is_healthy rate91State = true ↔
      (recent_success_rate rate91State > 90 ∧ pyRound2 (p99Latency rate91State) < 5000 ∧
        connection_health rate91State > 50) :=
  is_healthy_characterization.1 rate91State (by simp [rate91State])

theorem run_records (qs : List String) (stopT : Option ℚ) (sc : Bool)
    (clock : ℕ → ℚ) (fuel : ℕ) :
    (run_pregenerated_session qs stopT sc clock fuel).records =
      if qs.isEmpty then [] else (runLoop qs stopT clock fuel 0 0 []).2.2.1 := by
  by_cases h : qs.isEmpty
  · simp [run_pregenerated_session, h]
  · simp only [run_pregenerated_session, h, if_false, Bool.false_eq_true]

theorem run_cycles (qs : List String) (stopT : Option ℚ) (sc : Bool)
    (clock : ℕ → ℚ) (fuel : ℕ) :
    (run_pregenerated_session qs stopT sc clock fuel).cycles =
      if qs.isEmpty then 0 else (runLoop qs stopT clock fuel 0 0 []).1 := by
  by_cases h : qs.isEmpty
  · simp [run_pregenerated_session, h]
  · simp only [run_pregenerated_session, h, if_false, Bool.false_eq_true]

theorem runCycleAux_checkTime (T : ℚ) (clock : ℕ → ℚ) (cyc : ℕ) :
    ∀ (l : List String) (tick idx : ℕ) (acc : List ExecRecord),
      (∀ r ∈ acc, ∃ t, r.checkTime = some t ∧ t < T) →
      ∀ r ∈ (runCycleAux (some T) clock cyc l tick idx acc).2.1,
        ∃ t, r.checkTime = some t ∧ t < T := by
  intro l
  induction l with
  | nil => intro tick idx acc hacc r hr; exact hacc r hr
  | cons q rest ih =>
    intro tick idx acc hacc r hr
    simp only [runCycleAux] at hr
    by_cases hT : T ≤ clock tick
    · rw [if_pos hT] at hr
      exact hacc r hr
    · rw [if_neg hT] at hr
      refine ih _ _ _ ?_ r hr
      intro r' hr'
      rcases List.mem_append.mp hr' with h1 | h2
      · exact hacc r' h1
      · have : r' = ⟨cyc, idx + 1, some (clock tick), q⟩ := List.mem_singleton.mp h2
        subst this
        exact ⟨clock tick, rfl, not_le.mp hT⟩

theorem runLoop_checkTime (qs : List String) (T : ℚ) (clock : ℕ → ℚ) :
    ∀ (fuel tick cyc : ℕ) (acc : List ExecRecord),
      (∀ r ∈ acc, ∃ t, r.checkTime = some t ∧ t < T) →
      ∀ r ∈ (runLoop qs (some T) clock fuel tick cyc acc).2.2.1,
        ∃ t, r.checkTime = some t ∧ t < T := by
  intro fuel
  induction fuel with
  | zero => intro tick cyc acc hacc r hr; exact hacc r hr
  | succ fuel ih =>
    intro tick cyc acc hacc r hr
    simp only [runLoop] at hr
    rcases hcyc : runCycleAux (some T) clock (cyc + 1) qs tick 0 acc with ⟨tick', acc', broke⟩
    rw [hcyc] at hr
    have hacc' : ∀ r' ∈ acc', ∃ t, r'.checkTime = some t ∧ t < T := by
      intro r' hr'
      refine runCycleAux_checkTime T clock (cyc + 1) qs tick 0 acc hacc r' ?_
      rw [hcyc]
      exact hr'
    cases broke with
    | true => exact hacc' r hr
    | false =>
      have hr2 : r ∈ (if T ≤ clock tick' then ((cyc + 1 : ℕ), tick' + 1, acc', true)
          else runLoop qs (some T) clock fuel (tick' + 1) (cyc + 1) acc').2.2.1 := hr
      by_cases hT : T ≤ clock tick'
      · rw [if_pos hT] at hr2
        exact hacc' r hr2
      · rw [if_neg hT] at hr2
        exact ih _ _ _ hacc' r hr2

/-- C7: with a supplied `stop_time`, every execution record of a session
run carries the clock value observed at the pre-send deadline check, and
that value is strictly before the deadline — a query is never sent once
`now >= stop_time` was observed; moreover a runner whose first clock
sample already reaches the deadline produces zero records. -/
theorem deadline_checked_before_each_send :
    ∀ (qs : List String) (T : ℚ) (clock : ℕ → ℚ) (sc : Bool) (fuel : ℕ),
      (∀ r ∈ (run_pregenerated_session qs (some T) sc clock fuel).records,
        ∃ t, r.checkTime = some t ∧ t < T) ∧
      (T ≤ clock 0 →
        (run_pregenerated_session qs (some T) sc clock fuel).records = []) := by
  intro qs T clock sc fuel
  constructor
  · intro r hr
    rw [run_records] at hr
    by_cases hqs : qs.isEmpty
    · rw [if_pos hqs] at hr
      exact absurd hr (List.not_mem_nil r)
    · rw [if_neg hqs] at hr
      exact runLoop_checkTime qs T clock fuel 0 0 [] (by simp) r hr
  · intro hT
    rw [run_records]
    by_cases hqs : qs.isEmpty
    · rw [if_pos hqs]
    · rw [if_neg hqs]
      cases qs with
      | nil => simp at hqs
      | cons q rest =>
        cases fuel with
        | zero => rfl
        | succ fuel =>
          simp only [runLoop, runCycleAux, if_pos hT]

/-- Witness for C7: a run with deadline 10 and a clock frozen at 0
produces the single record of its one-element query list, whose recorded
check time 0 is before the deadline; and a run whose deadline 0 is already
reached at the first sample of a clock frozen at 7 produces no records. -/
theorem deadline_checked_witness :
    (∃ t, (ExecRecord.mk 1 1 (some 0) "a").checkTime = some t ∧ t < 10) ∧
    (run_pregenerated_session ["a"] (some 0) false (fun _ => 7) 1).records = [] :=
  ⟨(deadline_checked_before_each_send ["a"] 10 (fun _ => 0) false 1).1
      ⟨1, 1, some 0, "a"⟩ (by decide),
    (deadline_checked_before_each_send ["a"] 0 (fun _ => 7) false 1).2 (by norm_num)⟩

theorem mkRecords_length (cyc : ℕ) :
    ∀ (idx : ℕ) (l : List String), (mkRecords cyc idx l).length = l.length := by
  intro idx l
  induction l generalizing idx with
  | nil => rfl
  | cons q rest ih => simp [mkRecords, ih]

theorem runCycleAux_none_eq (clock : ℕ → ℚ) (cyc : ℕ) :
    ∀ (l : List String) (tick idx : ℕ) (acc : List ExecRecord),
      runCycleAux none clock cyc l tick idx acc =
        (tick, acc ++ mkRecords cyc idx l, false) := by
  intro l
  induction l with
  | nil => intro tick idx acc; simp [runCycleAux, mkRecords]
  | cons q rest ih =>
    intro tick idx acc
    simp only [runCycleAux, mkRecords, ih, List.append_assoc, List.singleton_append]

theorem runCycleAux_some_structure (T : ℚ) (clock : ℕ → ℚ) (cyc : ℕ) :
    ∀ (l : List String) (tick idx : ℕ) (acc : List ExecRecord),
      ∃ B tick' broke,
        runCycleAux (some T) clock cyc l tick idx acc = (tick', acc ++ B, broke) ∧
        (∀ r ∈ B, r.cycle = cyc) ∧
        B.map (fun r => r.origIdx) = List.range' (idx + 1) B.length ∧
        (broke = false → B.length = l.length) := by
  intro l
  induction l with
  | nil =>
    intro tick idx acc
    exact ⟨[], tick, false, by simp [runCycleAux], by simp, by simp, fun _ => rfl⟩
  | cons q rest ih =>
    intro tick idx acc
    by_cases hT : T ≤ clock tick
    · refine ⟨[], tick + 1, true, ?_, by simp, by simp, by simp⟩
      simp [runCycleAux, if_pos hT]
    · obtain ⟨B, tick', broke, heq, hcyc, hidx, hlen⟩ :=
        ih (tick + 1) (idx + 1) (acc ++ [⟨cyc, idx + 1, some (clock tick), q⟩])
      refine ⟨⟨cyc, idx + 1, some (clock tick), q⟩ :: B, tick', broke, ?_, ?_, ?_, ?_⟩
      · simp only [runCycleAux, if_neg hT]
        rw [heq, List.append_assoc, List.singleton_append]
      · intro r hr
        rcases List.mem_cons.mp hr with h1 | h2
        · rw [h1]
        · exact hcyc r h2
      · simp only [List.map_cons, hidx, List.length_cons, List.range'_succ]
      · intro hb
        simp [hlen hb]

theorem runLoop_some_structure (qs : List String) (T : ℚ) (clock : ℕ → ℚ) :
    ∀ (fuel tick cyc : ℕ) (acc : List ExecRecord),
      ∃ new c tick' fin,
        runLoop qs (some T) clock fuel tick cyc acc = (c, tick', acc ++ new, fin) ∧
        cyc ≤ c ∧
        (∀ r ∈ new, cyc < r.cycle ∧ r.cycle ≤ c) ∧
        (∀ j, cyc < j → j < c →
          ((new.filter (fun r => r.cycle == j)).map (fun r => r.origIdx) =
            List.range' 1 qs.length)) := by
  intro fuel
  induction fuel with
  | zero =>
    intro tick cyc acc
    exact ⟨[], cyc, tick, false, by simp [runLoop], le_refl _, by simp,
      fun j h1 h2 => absurd (lt_trans h1 h2) (lt_irrefl cyc)⟩
  | succ fuel ih =>
    intro tick cyc acc
    obtain ⟨B, tick', broke, heqB, hBcyc, hBidx, hBlen⟩ :=
      runCycleAux_some_structure T clock (cyc + 1) qs tick 0 acc
    cases broke with
    | true =>
      refine ⟨B, cyc + 1, tick', true, ?_, Nat.le_succ _, ?_, ?_⟩
      · simp only [runLoop]
        rw [heqB]
      · intro r hr
        rw [hBcyc r hr]
        omega
      · intro j h1 h2
        omega
    | false =>
      by_cases hT : T ≤ clock tick'
      · refine ⟨B, cyc + 1, tick' + 1, true, ?_, Nat.le_succ _, ?_, ?_⟩
        · have hstep : runLoop qs (some T) clock (fuel + 1) tick cyc acc =
              (if T ≤ clock tick' then ((cyc + 1 : ℕ), tick' + 1, acc ++ B, true)
                else runLoop qs (some T) clock fuel (tick' + 1) (cyc + 1) (acc ++ B)) := by
            simp only [runLoop]
            rw [heqB]
          rw [hstep, if_pos hT]
        · intro r hr
          rw [hBcyc r hr]
          omega
        · intro j h1 h2
          omega
      · obtain ⟨new', c, tick'', fin, heq', hle', hbound', hfull'⟩ :=
          ih (tick' + 1) (cyc + 1) (acc ++ B)
        refine ⟨B ++ new', c, tick'', fin, ?_, by omega, ?_, ?_⟩
        · have hstep : runLoop qs (some T) clock (fuel + 1) tick cyc acc =
              (if T ≤ clock tick' then ((cyc + 1 : ℕ), tick' + 1, acc ++ B, true)
                else runLoop qs (some T) clock fuel (tick' + 1) (cyc + 1) (acc ++ B)) := by
            simp only [runLoop]
            rw [heqB]
          rw [hstep, if_neg hT, heq', List.append_assoc]
        · intro r hr
          rcases List.mem_append.mp hr with h1 | h2
          · rw [hBcyc r h1]
            omega
          · have := hbound' r h2
            omega
        · intro j h1 h2
          rw [List.filter_append, List.map_append]
          by_cases hj : j = cyc + 1
          · subst hj
            have hBf : B.filter (fun r => r.cycle == cyc + 1) = B := by
              rw [List.filter_eq_self]
              intro r hr
              simp [hBcyc r hr]
            have hNf : new'.filter (fun r => r.cycle == cyc + 1) = [] := by
              rw [List.filter_eq_nil_iff]
              intro r hr
              have := (hbound' r hr).1
              simp only [beq_iff_eq]
              omega
            rw [hBf, hNf, List.map_nil, List.append_nil, hBidx, hBlen rfl]
          · have hBf : B.filter (fun r => r.cycle == j) = [] := by
              rw [List.filter_eq_nil_iff]
              intro r hr
              rw [hBcyc r hr]
              simp only [beq_iff_eq]
              omega
            rw [hBf, List.map_nil, List.nil_append]
            exact hfull' j (by omega) h2

/-- C8: with no `stop_time`, a non-empty query list is executed in exactly
one cycle with one record per query in order.  With a `stop_time`, every
record's cycle number lies between 1 and the final cycle counter, and
every cycle that was followed by a further cycle (every `j` strictly below
the final counter) was a complete pass: its records' original indices are
exactly `1, …, n` — the runner restarted from index 0 with the counter
incremented by exactly one, repeating until the deadline. -/
theorem session_cycle_semantics :
    (∀ (qs : List String) (sc : Bool) (clock : ℕ → ℚ) (fuel : ℕ), qs ≠ [] →
      run_pregenerated_session qs none sc clock (fuel + 1) =
        ⟨!sc, true, 1, mkRecords 1 0 qs, true⟩ ∧
      (mkRecords 1 0 qs).length = qs.length) ∧
    (∀ (qs : List String) (T : ℚ) (sc : Bool) (clock : ℕ → ℚ) (fuel : ℕ),
      (∀ r ∈ (run_pregenerated_session qs (some T) sc clock fuel).records,
        1 ≤ r.cycle ∧
          r.cycle ≤ (run_pregenerated_session qs (some T) sc clock fuel).cycles) ∧
      (∀ j, 1 ≤ j →
        j < (run_pregenerated_session qs (some T) sc clock fuel).cycles →
        (((run_pregenerated_session qs (some T) sc clock fuel).records.filter
            (fun r => r.cycle == j)).map (fun r => r.origIdx) =
          List.range' 1 qs.length))) := by
  constructor
  · intro qs sc clock fuel hqs
    have hie : qs.isEmpty = false := by
      cases qs with
      | nil => exact absurd rfl hqs
      | cons q rest => rfl
    refine ⟨?_, mkRecords_length 1 0 qs⟩
    simp only [run_pregenerated_session, hie, Bool.false_eq_true, if_false, runLoop,
      runCycleAux_none_eq, List.nil_append]
  · intro qs T sc clock fuel
    by_cases hqs : qs.isEmpty
    · constructor
      · intro r hr
        rw [run_records, if_pos hqs] at hr
        exact absurd hr (List.not_mem_nil r)
      · intro j h1 h2
        rw [run_cycles, if_pos hqs] at h2
        omega
    · obtain ⟨new, c, tick', fin, heq, hle, hbound, hfull⟩ :=
        runLoop_some_structure qs T clock fuel 0 0 []
      have hrec : (run_pregenerated_session qs (some T) sc clock fuel).records = new := by
        rw [run_records, if_neg hqs, heq]
        simp
      have hcyc : (run_pregenerated_session qs (some T) sc clock fuel).cycles = c := by
        rw [run_cycles, if_neg hqs, heq]
      constructor
      · intro r hr
        rw [hrec] at hr
        have := hbound r hr
        rw [hcyc]
        omega
      · intro j h1 h2
        rw [hcyc] at h2
        rw [hrec]
        exact hfull j (by omega) h2

/-- Witness for C8: a two-query list with no deadline runs in one full
cycle; and in a run of a one-query list that reached cycle 2 before its
deadline, cycle 1 was the complete pass `[1]`. -/
theorem session_cycle_witness :
    run_pregenerated_session ["a", "b"] none false (fun _ => 0) 1 =
      ⟨true, true, 1, mkRecords 1 0 ["a", "b"], true⟩ ∧
    (((run_pregenerated_session ["a"] (some 10) false
          (fun t => if t < 3 then (0 : ℚ) else 10) 3).records.filter
        (fun r => r.cycle == 1)).map (fun r => r.origIdx) = List.range' 1 1) :=
  ⟨(session_cycle_semantics.1 ["a", "b"] false (fun _ => 0) 0 (by decide)).1,
    (session_cycle_semantics.2 ["a"] 10 false
      (fun t => if t < 3 then (0 : ℚ) else 10) 3).2 1 (by decide) (by decide)⟩

theorem breachable_inv (n : ℕ) (v : ℚ) :
    ∀ s : BarrierState n, BReachable n v s →
      (s.orchPC ≠ 0 → s.stopTime = v) ∧
      (∀ i t, s.readVal i = some t → t = v) := by
  intro s h
  induction h with
  | refl =>
    exact ⟨fun h0 => absurd rfl h0, fun i t ht => by simp [initState] at ht⟩
  | tail hxy hstep ih =>
    rcases ih with ⟨ihw, ihr⟩
    cases hstep with
    | orchWrite hpc =>
      exact ⟨fun _ => rfl, fun i t ht => ihr i t ht⟩
    | orchArrive hpc =>
      exact ⟨fun _ => ihw (by rw [hpc]; omega), fun i t ht => ihr i t ht⟩
    | runnerArrive i hpc =>
      exact ⟨fun h0 => ihw h0, fun j t ht => ihr j t ht⟩
    | runnerRead i hpc hrel =>
      refine ⟨fun h0 => ihw h0, fun j t ht => ?_⟩
      by_cases hij : j = i
      · subst hij
        simp only [Function.update_same] at ht
        have hst := ihw (by rw [hrel.1]; omega)
        rw [← hst]
        exact (Option.some_inj.mp ht).symm
      · simp only [Function.update_noteq hij] at ht
        exact ihr j t ht

/-- C9: under every interleaving of the orchestrating thread and the
runner threads (in particular every assignment of per-thread delays before
the barrier), a runner that has passed the start barrier and read
`self.stop_time` has read exactly the value `v` the orchestrating thread
computed and wrote immediately before arriving at the barrier. -/
theorem barrier_publishes_single_stop_time :
    ∀ (n : ℕ) (v : ℚ) (s : BarrierState n), BReachable n v s →
      ∀ i t, s.readVal i = some t → t = v :=
  fun n v s h => (breachable_inv n v s h).2

/-- Witness for C9: in a fleet of one runner, the trace write — orch
arrive — runner arrive — runner read reaches a state whose runner read the
published stop time 42, and the theorem instantiates to `42 = 42`. -/
theorem barrier_stop_time_witness : (42 : ℚ) = 42 := by
  set i0 : Fin 1 := ⟨0, Nat.one_pos⟩ with hi0
  set s1 : BarrierState 1 := { initState 1 with stopTime := 42, orchPC := 1 } with hs1
  set s2 : BarrierState 1 := { s1 with orchPC := 2 } with hs2
  set s3 : BarrierState 1 := { s2 with runnerPC := Function.update s2.runnerPC i0 1 } with hs3
  set s4 : BarrierState 1 := { s3 with runnerPC := Function.update s3.runnerPC i0 2, readVal := Function.update s3.readVal i0 (some s3.stopTime) } with hs4
  have st1 : BStep 1 42 (initState 1) s1 := BStep.orchWrite _ rfl
  have st2 : BStep 1 42 s1 s2 := BStep.orchArrive _ rfl
  have st3 : BStep 1 42 s2 s3 := BStep.runnerArrive _ i0 rfl
  have hrel : released s3 := by
    refine ⟨rfl, fun i => ?_⟩
    have hii : i = i0 := Subsingleton.elim i i0
    rw [hii, hs3]
    simp [Function.update_same]
  have st4 : BStep 1 42 s3 s4 := by
    refine BStep.runnerRead _ i0 ?_ hrel
    rw [hs3]
    simp [Function.update_same]
  have hreach : BReachable 1 42 s4 :=
    Relation.ReflTransGen.tail (Relation.ReflTransGen.tail
      (Relation.ReflTransGen.tail (Relation.ReflTransGen.single st1) st2) st3) st4
  have hread : s4.readVal i0 = some 42 := by
    rw [hs4]
    simp [Function.update_same]
  exact barrier_publishes_single_stop_time 1 42 s4 hreach i0 42 hread

end Firestorm
